import Mathlib

/-!
Verification development for the MOSAICDATASET repository.

The repository extracts randomly positioned, fixed-size tiles from a large
annotated mosaic image, together with clipped object-detection labels.
This file gives a shallow embedding of the label-processing functions of
src/util.py (convert_objdetect_labels, get_labels_in_rectangle,
transform_image, add_vigneting) and of the sampling loop of
MosaicDataSet.get_image in src/mosaicdataset.py, and proves properties of
those definitions.

Conventions used throughout:
- Python ints are modelled as Int, Python floats as Rat (exact arithmetic).
- The Python names isPartial and rejectPartial are rendered as the returned
  Bool and rejectPart.
- Randomness is modelled by passing the stream of random draws as an
  explicit input list.
- The Gaussian profile np.exp used by add_vigneting is abstracted as a
  function parameter g, since no property proved here depends on its
  pointwise values; everything else follows the source.
-/

/-- A label in ABSOLUTE format, as documented in util.py:
[CLASS, XL, YT, XR, YB, AREA] with integer pixel coordinates of the
top-left and bottom-right corners and the precomputed box area.
The field cls renders CLASS (a reserved word in Lean). -/
structure AbsLabel where
  cls : ℤ
  xLeft : ℤ
  yTop : ℤ
  xRight : ℤ
  yBottom : ℤ
  area : ℤ
deriving DecidableEq, Repr

/-- A label in YOLOv5 (normalized) format, as documented in util.py:
[CLASS, XC, YC, W, H] with center, width and height relative to the
tagged image size.  wBox and hBox render W and H. -/
structure YoloLabel where
  cls : ℤ
  xCenter : ℚ
  yCenter : ℚ
  wBox : ℚ
  hBox : ℚ
deriving DecidableEq, Repr

/-- Python round(): round half to even (applied here to the exact rational
value; the source applies it to floats). -/
def pythonRound (q : ℚ) : ℤ :=
  if q - ⌊q⌋ < 1 / 2 then ⌊q⌋
  else if (1 : ℚ) / 2 < q - ⌊q⌋ then ⌊q⌋ + 1
  else if ⌊q⌋ % 2 = 0 then ⌊q⌋ else ⌊q⌋ + 1

/-- Per-label body of convert_objdetect_labels with theConversion = 0
(util.py lines 149-154): YOLOv5 to ABSOLUTE. -/
def yoloToAbs (imgWidth imgHeight : ℤ) (l : YoloLabel) : AbsLabel :=
  ⟨l.cls,
   pythonRound ((l.xCenter - l.wBox / 2) * ((imgWidth : ℚ) - 1)),
   pythonRound ((l.yCenter - l.hBox / 2) * ((imgHeight : ℚ) - 1)),
   pythonRound ((l.xCenter + l.wBox / 2) * ((imgWidth : ℚ) - 1)),
   pythonRound ((l.yCenter + l.hBox / 2) * ((imgHeight : ℚ) - 1)),
   pythonRound (l.wBox * (imgWidth : ℚ) * l.hBox * (imgHeight : ℚ))⟩

/-- Per-label body of convert_objdetect_labels with theConversion = 1
(util.py lines 157-161): ABSOLUTE to YOLOv5.  The class field is passed
through unchanged and the area field is dropped. -/
def absToYolo (imgWidth imgHeight : ℤ) (l : AbsLabel) : YoloLabel :=
  ⟨l.cls,
   ((l.xLeft + l.xRight : ℤ) : ℚ) / 2 / ((imgWidth : ℚ) - 1),
   ((l.yTop + l.yBottom : ℤ) : ℚ) / 2 / ((imgHeight : ℚ) - 1),
   ((l.xRight - l.xLeft : ℤ) : ℚ) / ((imgWidth : ℚ) - 1),
   ((l.yBottom - l.yTop : ℤ) : ℚ) / ((imgHeight : ℚ) - 1)⟩

/-- convert_objdetect_labels, branch theConversion = 0 (list version). -/
def convertToAbs (theLabels : List YoloLabel) (imgWidth imgHeight : ℤ) : List AbsLabel :=
  theLabels.map (yoloToAbs imgWidth imgHeight)

/-- convert_objdetect_labels, branch theConversion = 1 (list version). -/
def convertToYolo (theLabels : List AbsLabel) (imgWidth imgHeight : ℤ) : List YoloLabel :=
  theLabels.map (absToYolo imgWidth imgHeight)

/-- Candidacy test of get_labels_in_rectangle (util.py line 186): the label
box overlaps the rectangle at all. -/
def candidateIn (l : AbsLabel) (xLeft yTop xRight yBottom : ℤ) : Prop :=
  l.xRight ≥ xLeft ∧ l.xLeft < xRight ∧ l.yBottom ≥ yTop ∧ l.yTop < yBottom

instance (l : AbsLabel) (xLeft yTop xRight yBottom : ℤ) :
    Decidable (candidateIn l xLeft yTop xRight yBottom) := by
  unfold candidateIn; infer_instance

/-- Zero overlap between a label box (pixels xLeft..xRight inclusive, per the
ABSOLUTE format documentation) and the rectangle extent (pixels xLeft..xRight-1,
per the get_labels_in_rectangle documentation): the pixel intersection is
empty.  This is exactly the negation of candidateIn. -/
def noOverlap (l : AbsLabel) (xLeft yTop xRight yBottom : ℤ) : Prop :=
  l.xRight < xLeft ∨ xRight ≤ l.xLeft ∨ l.yBottom < yTop ∨ yBottom ≤ l.yTop

instance (l : AbsLabel) (xLeft yTop xRight yBottom : ℤ) :
    Decidable (noOverlap l xLeft yTop xRight yBottom) := by
  unfold noOverlap; infer_instance

/-- The clipped, rectangle-relative label computed in the body of
get_labels_in_rectangle (util.py lines 188-193 and 200): coordinates
clamped to the rectangle and translated to its origin, with the area
recomputed from the clipped box. -/
def clipLabel (xLeft yTop xRight yBottom : ℤ) (l : AbsLabel) : AbsLabel :=
  let lxLeft := max 0 (l.xLeft - xLeft)
  let lyTop := max 0 (l.yTop - yTop)
  let lxRight := min (xRight - xLeft) (l.xRight - xLeft)
  let lyBottom := min (yBottom - yTop) (l.yBottom - yTop)
  ⟨l.cls, lxLeft, lyTop, lxRight, lyBottom, (lxRight - lxLeft) * (lyBottom - lyTop)⟩

/-- The areaRatio computed in get_labels_in_rectangle (util.py line 194):
clipped area over the stored (original) label area. -/
def areaRatioOf (xLeft yTop xRight yBottom : ℤ) (l : AbsLabel) : ℚ :=
  ((clipLabel xLeft yTop xRight yBottom l).area : ℚ) / (l.area : ℚ)

/-- get_labels_in_rectangle (util.py lines 181-201).  The loop with break
is rendered as structural recursion: a break deep in the list still
returns the labels accumulated for the earlier elements, because the
recursion prepends them, and the break flag propagates in the second
component (the isPartial output of the source). -/
def get_labels_in_rectangle (theLabels : List AbsLabel) (xLeft yTop xRight yBottom : ℤ)
    (minPct : ℚ) (rejectPart : Bool) : List AbsLabel × Bool :=
  match theLabels with
  | [] => ([], false)
  | curLabel :: rest =>
    if candidateIn curLabel xLeft yTop xRight yBottom then
      let areaQuot := areaRatioOf xLeft yTop xRight yBottom curLabel
      if rejectPart ∧ areaQuot < 1 then ([], true)
      else
        let res := get_labels_in_rectangle rest xLeft yTop xRight yBottom minPct rejectPart
        if areaQuot ≥ minPct then (clipLabel xLeft yTop xRight yBottom curLabel :: res.1, res.2)
        else res
    else get_labels_in_rectangle rest xLeft yTop xRight yBottom minPct rejectPart

/-- A grayscale image: pixel array with a height, a width and a pixel
function (row, column to value).  The source also allows color images,
whose channels are all treated alike by every transform modelled here. -/
structure Image where
  height : ℕ
  width : ℕ
  pix : ℕ → ℕ → ℚ

/-- np.fliplr: mirror the pixel columns. -/
def fliplr (img : Image) : Image :=
  ⟨img.height, img.width, fun y x => img.pix y (img.width - 1 - x)⟩

/-- np.flipud: mirror the pixel rows. -/
def flipud (img : Image) : Image :=
  ⟨img.height, img.width, fun y x => img.pix (img.height - 1 - y) x⟩

/-- Label remapping of the horizontal flip (util.py line 104):
x coordinates are sent to width-1-xRight and width-1-xLeft. -/
def flipLabelsH (w : ℕ) (theLabels : List AbsLabel) : List AbsLabel :=
  theLabels.map fun l =>
    ⟨l.cls, (w : ℤ) - 1 - l.xRight, l.yTop, (w : ℤ) - 1 - l.xLeft, l.yBottom, l.area⟩

/-- Label remapping of the vertical flip (util.py line 110):
y coordinates are sent to height-1-yBottom and height-1-yTop. -/
def flipLabelsV (h : ℕ) (theLabels : List AbsLabel) : List AbsLabel :=
  theLabels.map fun l =>
    ⟨l.cls, l.xLeft, (h : ℤ) - 1 - l.yBottom, l.xRight, (h : ℤ) - 1 - l.yTop, l.area⟩

/-- Python int(): truncation toward zero. -/
def pyTrunc (q : ℚ) : ℤ := if 0 ≤ q then ⌊q⌋ else ⌈q⌉

/-- Brightness step of transform_image (util.py line 112):
np.clip(theImage + brightValue*brightScale*2 - brightScale, 0, 1). -/
def brightnessAdjust (img : Image) (brightValue brightScale : ℚ) : Image :=
  ⟨img.height, img.width,
   fun y x => min 1 (max 0 (img.pix y x + brightValue * brightScale * 2 - brightScale))⟩

/-- add_vigneting (util.py lines 59-78) on a grayscale image.  The sigma,
the integer center and the squared-distance argument follow the source;
g stands for the Gaussian x to exp(x); the mask is normalized by its
maximum over the pixel grid (np.max; the source errors on an empty image,
here the fold then yields the junk base value 0). -/
def add_vigneting (g : ℚ → ℚ) (img : Image)
    (sigmaMultiplier xRelCenter yRelCenter : ℚ) : Image :=
  let theSigma : ℚ := sigmaMultiplier * (max img.height img.width : ℕ) / 2
  let xCenter : ℤ := pyTrunc ((img.width : ℚ) * xRelCenter)
  let yCenter : ℤ := pyTrunc ((img.height : ℚ) * yRelCenter)
  let theMask : ℕ → ℕ → ℚ := fun y x =>
    g (-((((x : ℤ) - xCenter : ℤ) : ℚ) ^ 2 + (((y : ℤ) - yCenter : ℤ) : ℚ) ^ 2)
        / (2 * theSigma ^ 2))
  let maskMax : ℚ :=
    (((List.range img.height).map fun y =>
        ((List.range img.width).map fun x => theMask y x)).flatten).foldr max 0
  ⟨img.height, img.width, fun y x => img.pix y x * (theMask y x / maskMax)⟩

/-- The pixel-only tail of transform_image (util.py lines 112-114):
brightness change followed by vigneting. -/
def postFlipPixels (img : Image)
    (brightValue brightScale sigmaMultiplier xRelCenter yRelCenter : ℚ)
    (g : ℚ → ℚ) : Image :=
  add_vigneting g (brightnessAdjust img brightValue brightScale)
    sigmaMultiplier xRelCenter yRelCenter

/-- transform_image (util.py lines 98-116): conditional horizontal flip
(bit 0 of flipValue), conditional vertical flip (bit 1), brightness change,
vigneting.  As in the source, the label flips read the image dimensions
after the pixel flip (flips preserve the shape). -/
def transform_image (theImage : Image) (theLabels : List AbsLabel) (flipValue : ℕ)
    (brightValue brightScale sigmaMultiplier xRelCenter yRelCenter : ℚ)
    (g : ℚ → ℚ) : Image × List AbsLabel :=
  let img1 := if flipValue &&& 1 ≠ 0 then fliplr theImage else theImage
  let lab1 := if flipValue &&& 1 ≠ 0 then flipLabelsH img1.width theLabels else theLabels
  let img2 := if flipValue &&& 2 ≠ 0 then flipud img1 else img1
  let lab2 := if flipValue &&& 2 ≠ 0 then flipLabelsV img2.height lab1 else lab1
  (postFlipPixels img2 brightValue brightScale sigmaMultiplier xRelCenter yRelCenter g, lab2)

/-- A candidate tile rectangle drawn by get_image (mosaicdataset.py
lines 160-163). -/
structure Rect where
  xLeft : ℤ
  yTop : ℤ
  xRight : ℤ
  yBottom : ℤ
deriving DecidableEq, Repr

/-- The members of MosaicDataSet that the sampling loop of get_image reads
(mosaicdataset.py lines 151-176).  rejectPart renders _rejectPartial. -/
structure SamplerConfig where
  theLabels : List AbsLabel
  imgWidth : ℤ
  imgHeight : ℤ
  minLabels : ℕ
  minArea : ℚ
  maxIter : ℕ
  rejectPart : Bool

/-- Outcome of the sampling loop of get_image.  ok carries bestRect and
bestLabels as read by the pixel-extraction step (line 178).  innerDiverged
models the inner while loop running out of random draws (the documented
possible infinite loop).  bestUndefined models the Python NameError that
extraction would raise were bestRect never assigned. -/
inductive SampleResult where
  | ok (bestRect : Rect) (bestLabels : List AbsLabel)
  | innerDiverged
  | bestUndefined
deriving DecidableEq, Repr

/-- The inner while doSearch loop of get_image (mosaicdataset.py lines
158-167): draw a rectangle of the configured tile size, clip the labels,
and redraw while _rejectPartial holds and the result is partial.  The
random draws are consumed from the input list; an exhausted list models
nontermination. -/
def innerSearch (cfg : SamplerConfig) :
    List (ℤ × ℤ) → Option (Rect × List AbsLabel × List (ℤ × ℤ))
  | [] => none
  | (xLeft, yTop) :: rest =>
    let xRight := xLeft + cfg.imgWidth
    let yBottom := yTop + cfg.imgHeight
    let res := get_labels_in_rectangle cfg.theLabels xLeft yTop xRight yBottom
      cfg.minArea cfg.rejectPart
    if cfg.rejectPart && res.2 then innerSearch cfg rest
    else some (⟨xLeft, yTop, xRight, yBottom⟩, res.1, rest)

/-- The best-trial recording step of get_image (mosaicdataset.py lines
170-173): the candidate becomes the new best when numLabels exceeds
maxLabels or maxLabels is zero. -/
def recordStep (numLabels maxLabels : ℕ) (cand : Rect × List AbsLabel)
    (best : Option (Rect × List AbsLabel)) : ℕ × Option (Rect × List AbsLabel) :=
  if numLabels > maxLabels ∨ maxLabels = 0 then (numLabels, some cand) else (maxLabels, best)

/-- The outer for loop of get_image (mosaicdataset.py lines 153-178),
followed by the read of bestRect and bestLabels: run up to the given
number of trials, record the best via recordStep, break once numLabels
reaches _minLabels, and finally read the recorded best. -/
def sampleLoop (cfg : SamplerConfig) :
    ℕ → List (ℤ × ℤ) → ℕ → Option (Rect × List AbsLabel) → SampleResult
  | 0, _, _, none => .bestUndefined
  | 0, _, _, some (r, ls) => .ok r ls
  | n + 1, draws, maxLabels, best =>
    match innerSearch cfg draws with
    | none => .innerDiverged
    | some (r, curLabels, rest) =>
      let numLabels := curLabels.length
      let p := recordStep numLabels maxLabels (r, curLabels) best
      if numLabels ≥ cfg.minLabels then
        match p.2 with
        | some (br, bls) => .ok br bls
        | none => .bestUndefined
      else sampleLoop cfg n rest p.1 p.2

/-- get_image up to the selection of bestRect and bestLabels
(mosaicdataset.py lines 152-178): maxLabels starts at 0 and no best is
recorded yet.  The subsequent pixel extraction, transform_image call and
label-format conversion operate on the returned best pair. -/
def get_image (cfg : SamplerConfig) (draws : List (ℤ × ℤ)) : SampleResult :=
  sampleLoop cfg cfg.maxIter draws 0 none

/-- The sequence of (rectangle, labels) outcomes the outer trials would
produce: each entry is the result of one terminating inner search.  The
list is cut short if the inner search runs out of draws. -/
def trialOutcomes (cfg : SamplerConfig) : ℕ → List (ℤ × ℤ) → List (Rect × List AbsLabel)
  | 0, _ => []
  | n + 1, draws =>
    match innerSearch cfg draws with
    | none => []
    | some (r, curLabels, rest) => (r, curLabels) :: trialOutcomes cfg n rest

/-- Maximum label count over a list of trial outcomes. -/
def maxLabelCount (ts : List (Rect × List AbsLabel)) : ℕ :=
  ts.foldr (fun p m => max p.2.length m) 0

/-- The label of the worked scenarios in the specification:
(0, 100, 100, 200, 200, 10000). -/
def lblDemo : AbsLabel := ⟨0, 100, 100, 200, 200, 10000⟩

/-- A label with no overlap with the rectangle (50,50,250,250), used as a
concrete instance. -/
def lblFar : AbsLabel := ⟨0, 300, 300, 400, 400, 10000⟩

/-- A normalized label used as a concrete instance. -/
def lblYolo : YoloLabel := ⟨0, 1 / 2, 1 / 2, 1 / 4, 1 / 4⟩

/-- A configuration with no labels, tile size 4 x 4, minLabels 1 and two
trials, used for concrete sampler runs. -/
def cfgTwoTrials : SamplerConfig := ⟨[], 4, 4, 1, 1 / 2, 2, false⟩

/-- The same configuration with a single trial. -/
def cfgOneTrial : SamplerConfig := ⟨[], 4, 4, 1, 1 / 2, 1, false⟩

/-! ## Helper lemmas -/

theorem noOverlap_iff_not_candidate (l : AbsLabel) (xL yT xR yB : ℤ) :
    noOverlap l xL yT xR yB ↔ ¬ candidateIn l xL yT xR yB := by
  unfold noOverlap candidateIn; omega

theorem clip_skip (pre suf : List AbsLabel) (l : AbsLabel) (xL yT xR yB : ℤ)
    (minPct : ℚ) (rejectPart : Bool) (hno : ¬ candidateIn l xL yT xR yB) :
    get_labels_in_rectangle (pre ++ l :: suf) xL yT xR yB minPct rejectPart =
    get_labels_in_rectangle (pre ++ suf) xL yT xR yB minPct rejectPart := by
  induction pre with
  | nil => simp only [List.nil_append, get_labels_in_rectangle, hno, if_false]
  | cons p pre ih =>
      simp only [List.cons_append, get_labels_in_rectangle, List.append_eq, ih]

theorem clip_break (pre suf suf' : List AbsLabel) (l : AbsLabel) (xL yT xR yB : ℤ)
    (minPct : ℚ) (hc : candidateIn l xL yT xR yB)
    (hq : areaRatioOf xL yT xR yB l < 1) :
    get_labels_in_rectangle (pre ++ l :: suf) xL yT xR yB minPct true =
      get_labels_in_rectangle (pre ++ l :: suf') xL yT xR yB minPct true ∧
    (get_labels_in_rectangle (pre ++ l :: suf) xL yT xR yB minPct true).2 = true := by
  induction pre with
  | nil => simp [get_labels_in_rectangle, hc, hq]
  | cons p pre ih =>
      by_cases hp : candidateIn p xL yT xR yB
      · by_cases hb : areaRatioOf xL yT xR yB p < 1
        · simp [get_labels_in_rectangle, List.append_eq, hp, hb]
        · by_cases hm : areaRatioOf xL yT xR yB p ≥ minPct
          · refine ⟨?_, ?_⟩
            · simp [get_labels_in_rectangle, List.append_eq, hp, hb, hm, ih.1]
            · simp [get_labels_in_rectangle, List.append_eq, hp, hb, hm, ih.2]
          · refine ⟨?_, ?_⟩
            · simp [get_labels_in_rectangle, List.append_eq, hp, hb, hm, ih.1]
            · simp [get_labels_in_rectangle, List.append_eq, hp, hb, hm, ih.2]
      · refine ⟨?_, ?_⟩
        · simp [get_labels_in_rectangle, List.append_eq, hp, ih.1]
        · simp [get_labels_in_rectangle, List.append_eq, hp, ih.2]

theorem pythonRound_abs_sub (q : ℚ) : |(pythonRound q : ℚ) - q| ≤ 1 / 2 := by
  have h1 : (⌊q⌋ : ℚ) ≤ q := Int.floor_le q
  have h2 : q < ⌊q⌋ + 1 := Int.lt_floor_add_one q
  unfold pythonRound
  split_ifs with c1 c2 c3 <;>
    · rw [abs_le]
      push_cast
      constructor <;> linarith

theorem roundtrip_center (xc w d : ℚ) (hd : 1 ≤ d) :
    |(((pythonRound ((xc - w / 2) * d) + pythonRound ((xc + w / 2) * d) : ℤ) : ℚ)) / 2 / d - xc|
      ≤ 1 / d := by
  have h0 : (0 : ℚ) < d := lt_of_lt_of_le one_pos hd
  have ha := pythonRound_abs_sub ((xc - w / 2) * d)
  have hb := pythonRound_abs_sub ((xc + w / 2) * d)
  have key : (((pythonRound ((xc - w / 2) * d) + pythonRound ((xc + w / 2) * d) : ℤ) : ℚ)) / 2 / d
        - xc
      = (((pythonRound ((xc - w / 2) * d) : ℚ) - (xc - w / 2) * d)
          + ((pythonRound ((xc + w / 2) * d) : ℚ) - (xc + w / 2) * d)) / (2 * d) := by
    field_simp
    ring
  rw [key, abs_div, abs_of_pos (by linarith : (0 : ℚ) < 2 * d)]
  have hnum : |((pythonRound ((xc - w / 2) * d) : ℚ) - (xc - w / 2) * d)
      + ((pythonRound ((xc + w / 2) * d) : ℚ) - (xc + w / 2) * d)| ≤ 1 :=
    le_trans (abs_add _ _) (by linarith)
  calc |((pythonRound ((xc - w / 2) * d) : ℚ) - (xc - w / 2) * d)
      + ((pythonRound ((xc + w / 2) * d) : ℚ) - (xc + w / 2) * d)| / (2 * d)
      ≤ 1 / (2 * d) := div_le_div_of_nonneg_right hnum (by linarith)
    _ ≤ 1 / d := div_le_div_of_nonneg_left one_pos.le h0 (by linarith)

theorem roundtrip_width (xc w d : ℚ) (hd : 1 ≤ d) :
    |(((pythonRound ((xc + w / 2) * d) - pythonRound ((xc - w / 2) * d) : ℤ) : ℚ)) / d - w|
      ≤ 1 / d := by
  have h0 : (0 : ℚ) < d := lt_of_lt_of_le one_pos hd
  have ha := pythonRound_abs_sub ((xc - w / 2) * d)
  have hb := pythonRound_abs_sub ((xc + w / 2) * d)
  have key : (((pythonRound ((xc + w / 2) * d) - pythonRound ((xc - w / 2) * d) : ℤ) : ℚ)) / d - w
      = (((pythonRound ((xc + w / 2) * d) : ℚ) - (xc + w / 2) * d)
          - ((pythonRound ((xc - w / 2) * d) : ℚ) - (xc - w / 2) * d)) / d := by
    field_simp
    ring
  rw [key, abs_div, abs_of_pos h0]
  have hnum : |((pythonRound ((xc + w / 2) * d) : ℚ) - (xc + w / 2) * d)
      - ((pythonRound ((xc - w / 2) * d) : ℚ) - (xc - w / 2) * d)| ≤ 1 :=
    le_trans (abs_sub _ _) (by linarith)
  calc |((pythonRound ((xc + w / 2) * d) : ℚ) - (xc + w / 2) * d)
      - ((pythonRound ((xc - w / 2) * d) : ℚ) - (xc - w / 2) * d)| / d
      ≤ 1 / d := div_le_div_of_nonneg_right hnum h0.le

theorem maxLabelCount_cons (p : Rect × List AbsLabel) (ts : List (Rect × List AbsLabel)) :
    maxLabelCount (p :: ts) = max p.2.length (maxLabelCount ts) := rfl

theorem sampleLoop_best_spec (cfg : SamplerConfig) :
    ∀ (n : ℕ) (draws : List (ℤ × ℤ)) (maxLabels : ℕ) (best : Option (Rect × List AbsLabel)),
    (trialOutcomes cfg n draws).length = n →
    (∀ p ∈ trialOutcomes cfg n draws, p.2.length < cfg.minLabels) →
    (best = none → maxLabels = 0) →
    (∀ r ls, best = some (r, ls) → ls.length = maxLabels) →
    (1 ≤ n ∨ best ≠ none) →
    ∃ r ls, sampleLoop cfg n draws maxLabels best = .ok r ls ∧
      ls.length = max maxLabels (maxLabelCount (trialOutcomes cfg n draws)) ∧
      ((r, ls) ∈ trialOutcomes cfg n draws ∨ best = some (r, ls)) := by
  intro n
  induction n with
  | zero =>
      intro draws maxLabels best hlen hall hb0 hbs hne
      rcases hne with hn | hne
      · omega
      · match best, hne with
        | some (r, ls), _ =>
            refine ⟨r, ls, rfl, ?_, Or.inr rfl⟩
            simp [trialOutcomes, maxLabelCount, hbs r ls rfl]
  | succ n ih =>
      intro draws maxLabels best hlen hall hb0 hbs hne
      match hin : innerSearch cfg draws with
      | none =>
          rw [trialOutcomes, hin] at hlen
          simp at hlen
      | some (r0, ls0, rest) =>
          have hts : trialOutcomes cfg (n + 1) draws = (r0, ls0) :: trialOutcomes cfg n rest := by
            rw [trialOutcomes, hin]
          rw [hts] at hlen hall
          have hlen' : (trialOutcomes cfg n rest).length = n := by simpa using hlen
          have hall' : ∀ p ∈ trialOutcomes cfg n rest, p.2.length < cfg.minLabels :=
            fun p hp => hall p (List.mem_cons_of_mem _ hp)
          have hlt : ls0.length < cfg.minLabels := hall (r0, ls0) (List.mem_cons_self _ _)
          rw [sampleLoop, hin]
          simp only
          have hnobreak : ¬ (ls0.length ≥ cfg.minLabels) := by omega
          rw [if_neg hnobreak]
          by_cases hrec : ls0.length > maxLabels ∨ maxLabels = 0
          · have hp : recordStep ls0.length maxLabels (r0, ls0) best = (ls0.length, some (r0, ls0)) := by
              unfold recordStep; rw [if_pos hrec]
            rw [hp]
            obtain ⟨r, ls, hres, hmax, hmem⟩ := ih rest ls0.length (some (r0, ls0)) hlen' hall'
              (by intro h; cases h) (by intro r' ls' h; cases h; rfl) (Or.inr (by simp))
            refine ⟨r, ls, hres, ?_, ?_⟩
            · rw [hts, maxLabelCount_cons]
              dsimp only at *
              rcases hrec with h | h <;> omega
            · rw [hts]
              rcases hmem with h | h
              · exact Or.inl (List.mem_cons_of_mem _ h)
              · cases h
                exact Or.inl (List.mem_cons_self _ _)
          · push_neg at hrec
            obtain ⟨hle, hml⟩ := hrec
            have hbest : ∃ r' ls', best = some (r', ls') := by
              match best, hb0 with
              | some (r', ls'), _ => exact ⟨r', ls', rfl⟩
              | none, hb0 => exact absurd (hb0 rfl) hml
            obtain ⟨r', ls', hbeq⟩ := hbest
            have hp : recordStep ls0.length maxLabels (r0, ls0) best = (maxLabels, best) := by
              unfold recordStep
              rw [if_neg (by omega)]
            rw [hp]
            obtain ⟨r, ls, hres, hmax, hmem⟩ := ih rest maxLabels best hlen' hall'
              (by rw [hbeq]; intro h; cases h) hbs (Or.inr (by rw [hbeq]; simp))
            refine ⟨r, ls, hres, ?_, ?_⟩
            · rw [hts, maxLabelCount_cons]
              dsimp only at *
              omega
            · rw [hts]
              rcases hmem with h | h
              · exact Or.inl (List.mem_cons_of_mem _ h)
              · exact Or.inr h

theorem sampleLoop_ok_of (cfg : SamplerConfig) :
    ∀ (n : ℕ) (draws : List (ℤ × ℤ)) (maxLabels : ℕ) (best : Option (Rect × List AbsLabel)),
    (trialOutcomes cfg n draws).length = n →
    (best = none → maxLabels = 0) →
    (1 ≤ n ∨ ∃ r ls, best = some (r, ls)) →
    ∃ r ls, sampleLoop cfg n draws maxLabels best = .ok r ls := by
  intro n
  induction n with
  | zero =>
      intro draws maxLabels best hlen hb0 hne
      rcases hne with hn | ⟨r, ls, hbe⟩
      · omega
      · subst hbe
        exact ⟨r, ls, rfl⟩
  | succ n ih =>
      intro draws maxLabels best hlen hb0 hne
      match hin : innerSearch cfg draws with
      | none =>
          rw [trialOutcomes, hin] at hlen
          simp at hlen
      | some (r0, ls0, rest) =>
          have hlen' : (trialOutcomes cfg n rest).length = n := by
            rw [trialOutcomes, hin] at hlen
            simpa using hlen
          rw [sampleLoop, hin]
          simp only
          by_cases hrec : ls0.length > maxLabels ∨ maxLabels = 0
          · have hp : recordStep ls0.length maxLabels (r0, ls0) best = (ls0.length, some (r0, ls0)) := by
              unfold recordStep; rw [if_pos hrec]
            rw [hp]
            by_cases hbrk : ls0.length ≥ cfg.minLabels
            · rw [if_pos hbrk]
              exact ⟨r0, ls0, rfl⟩
            · rw [if_neg hbrk]
              exact ih rest ls0.length (some (r0, ls0)) hlen' (by intro h; cases h)
                (Or.inr ⟨r0, ls0, rfl⟩)
          · push_neg at hrec
            obtain ⟨hle, hml⟩ := hrec
            obtain ⟨r', ls', hbeq⟩ : ∃ r' ls', best = some (r', ls') := by
              match best, hb0 with
              | some (r', ls'), _ => exact ⟨r', ls', rfl⟩
              | none, hb0 => exact absurd (hb0 rfl) hml
            have hp : recordStep ls0.length maxLabels (r0, ls0) best = (maxLabels, best) := by
              unfold recordStep; rw [if_neg (by omega)]
            rw [hp]
            by_cases hbrk : ls0.length ≥ cfg.minLabels
            · rw [if_pos hbrk, hbeq]
              exact ⟨r', ls', rfl⟩
            · rw [if_neg hbrk]
              exact ih rest maxLabels best hlen' (by rw [hbeq]; intro h; cases h)
                (Or.inr ⟨r', ls', hbeq⟩)

theorem sampleLoop_preserve (cfg : SamplerConfig) :
    ∀ (n : ℕ) (draws : List (ℤ × ℤ)) (maxLabels : ℕ) (r : Rect) (ls : List AbsLabel),
    (trialOutcomes cfg n draws).length = n →
    ls.length = maxLabels → 0 < maxLabels →
    (∀ p ∈ trialOutcomes cfg n draws, p.2.length ≤ maxLabels) →
    sampleLoop cfg n draws maxLabels (some (r, ls)) = .ok r ls := by
  intro n
  induction n with
  | zero => intro draws maxLabels r ls _ _ _ _; rfl
  | succ n ih =>
      intro draws maxLabels r ls hlen hml hpos hall
      match hin : innerSearch cfg draws with
      | none =>
          rw [trialOutcomes, hin] at hlen
          simp at hlen
      | some (r0, ls0, rest) =>
          have hts : trialOutcomes cfg (n + 1) draws = (r0, ls0) :: trialOutcomes cfg n rest := by
            rw [trialOutcomes, hin]
          rw [hts] at hlen hall
          have hlen' : (trialOutcomes cfg n rest).length = n := by simpa using hlen
          have hle : ls0.length ≤ maxLabels := by
            have := hall (r0, ls0) (List.mem_cons_self _ _)
            simpa using this
          rw [sampleLoop, hin]
          simp only
          have hp : recordStep ls0.length maxLabels (r0, ls0) (some (r, ls)) = (maxLabels, some (r, ls)) := by
            unfold recordStep; rw [if_neg (by omega)]
          rw [hp]
          by_cases hbrk : ls0.length ≥ cfg.minLabels
          · rw [if_pos hbrk]
          · rw [if_neg hbrk]
            exact ih rest maxLabels r ls hlen' hml hpos
              (fun p hp' => hall p (List.mem_cons_of_mem _ hp'))

/-! ## Claim theorems -/

/-- Claim C5: a label satisfying the area invariant whose (nonempty) box is
fully contained in the rectangle is kept by clip and returned with the same
width, height, class and area, translated by (-xLeft, -yTop), with
areaRatio 1 and isPartial false.  The nonemptiness of the box keeps the
stored area nonzero, as the division on util.py line 194 requires. -/
theorem clip_keepsContainedLabel (l : AbsLabel) (xL yT xR yB : ℤ) (minPct : ℚ)
    (rejectPart : Bool)
    (harea : l.area = (l.xRight - l.xLeft) * (l.yBottom - l.yTop))
    (hx : l.xLeft < l.xRight) (hy : l.yTop < l.yBottom)
    (hcx1 : xL ≤ l.xLeft) (hcx2 : l.xRight ≤ xR)
    (hcy1 : yT ≤ l.yTop) (hcy2 : l.yBottom ≤ yB)
    (hpct : minPct ≤ 1) :
    get_labels_in_rectangle [l] xL yT xR yB minPct rejectPart =
      ([⟨l.cls, l.xLeft - xL, l.yTop - yT, l.xRight - xL, l.yBottom - yT, l.area⟩], false) ∧
    areaRatioOf xL yT xR yB l = 1 := by
  have hclip : clipLabel xL yT xR yB l =
      ⟨l.cls, l.xLeft - xL, l.yTop - yT, l.xRight - xL, l.yBottom - yT, l.area⟩ := by
    unfold clipLabel
    have h1 : max 0 (l.xLeft - xL) = l.xLeft - xL := by omega
    have h2 : max 0 (l.yTop - yT) = l.yTop - yT := by omega
    have h3 : min (xR - xL) (l.xRight - xL) = l.xRight - xL := by omega
    have h4 : min (yB - yT) (l.yBottom - yT) = l.yBottom - yT := by omega
    simp only [h1, h2, h3, h4]
    congr 1
    rw [harea]; ring
  have hpos : (0 : ℤ) < l.area := by
    rw [harea]
    exact mul_pos (by omega) (by omega)
  have hratio : areaRatioOf xL yT xR yB l = 1 := by
    unfold areaRatioOf
    rw [hclip]
    exact div_self (by exact_mod_cast hpos.ne.symm)
  refine ⟨?_, hratio⟩
  simp [get_labels_in_rectangle, candidateIn, hratio, hclip, hpct]
  omega

/-- Witness for clip_keepsContainedLabel: the specification scenario with
label (0,100,100,200,200,10000) and rectangle (50,50,250,250). -/
theorem clip_keepsContainedLabel_witness :
    lblDemo.area = (lblDemo.xRight - lblDemo.xLeft) * (lblDemo.yBottom - lblDemo.yTop) ∧
    lblDemo.xLeft < lblDemo.xRight ∧ lblDemo.yTop < lblDemo.yBottom ∧
    (50 : ℤ) ≤ lblDemo.xLeft ∧ lblDemo.xRight ≤ 250 ∧
    (50 : ℤ) ≤ lblDemo.yTop ∧ lblDemo.yBottom ≤ 250 ∧
    (1 : ℚ) / 2 ≤ 1 ∧
    (get_labels_in_rectangle [lblDemo] 50 50 250 250 (1 / 2) false =
        ([⟨0, 50, 50, 150, 150, 10000⟩], false) ∧
      areaRatioOf 50 50 250 250 lblDemo = 1) :=
  ⟨by decide, by decide, by decide, by decide, by decide, by decide, by decide, by norm_num,
   by
    have h := clip_keepsContainedLabel lblDemo 50 50 250 250 (1 / 2) false (by decide)
      (by decide) (by decide) (by decide) (by decide) (by decide) (by decide) (by norm_num)
    simpa [lblDemo] using h⟩

/-- Claim C6: a label whose pixel box has empty intersection with the
rectangle extent is excluded by clip, for every minAreaRatio in [0,1] and
either value of rejectPartial: removing the label from the input changes
nothing about the output. -/
theorem clip_excludesZeroOverlap (pre suf : List AbsLabel) (l : AbsLabel)
    (xL yT xR yB : ℤ) (minPct : ℚ) (rejectPart : Bool)
    (hpct0 : 0 ≤ minPct) (hpct1 : minPct ≤ 1)
    (hno : noOverlap l xL yT xR yB) :
    get_labels_in_rectangle (pre ++ l :: suf) xL yT xR yB minPct rejectPart =
    get_labels_in_rectangle (pre ++ suf) xL yT xR yB minPct rejectPart :=
  clip_skip pre suf l xL yT xR yB minPct rejectPart
    ((noOverlap_iff_not_candidate l xL yT xR yB).1 hno)

/-- Witness for clip_excludesZeroOverlap: the label (0,300,300,400,400,10000)
does not overlap the rectangle (50,50,250,250) and is excluded. -/
theorem clip_excludesZeroOverlap_witness :
    (0 : ℚ) ≤ 1 / 2 ∧ (1 : ℚ) / 2 ≤ 1 ∧ noOverlap lblFar 50 50 250 250 ∧
    get_labels_in_rectangle [lblDemo, lblFar] 50 50 250 250 (1 / 2) false =
      get_labels_in_rectangle [lblDemo] 50 50 250 250 (1 / 2) false :=
  ⟨by norm_num, by norm_num, by decide,
   by
    have h := clip_excludesZeroOverlap [lblDemo] [] lblFar 50 50 250 250 (1 / 2) false
      (by norm_num) (by norm_num) (by decide)
    simpa using h⟩

/-- Claim C10: for input labels with ordered coordinates and an ordered
rectangle, every label produced by clip lies inside the rectangle-relative
box, has ordered coordinates, and carries exactly the area of its clipped
box; this holds for the accumulated list on every call, including calls
that return isPartial true. -/
theorem clip_outputInvariant (ls : List AbsLabel) (xL yT xR yB : ℤ) (minPct : ℚ)
    (rejectPart : Bool)
    (hls : ∀ l ∈ ls, l.xLeft ≤ l.xRight ∧ l.yTop ≤ l.yBottom)
    (hrx : xL ≤ xR) (hry : yT ≤ yB) :
    ∀ o ∈ (get_labels_in_rectangle ls xL yT xR yB minPct rejectPart).1,
      0 ≤ o.xLeft ∧ o.xLeft ≤ o.xRight ∧ o.xRight ≤ xR - xL ∧
      0 ≤ o.yTop ∧ o.yTop ≤ o.yBottom ∧ o.yBottom ≤ yB - yT ∧
      o.area = (o.xRight - o.xLeft) * (o.yBottom - o.yTop) := by
  induction ls with
  | nil => simp [get_labels_in_rectangle]
  | cons cur rest ih =>
      have hcur := hls cur (by simp)
      have hrest : ∀ l ∈ rest, l.xLeft ≤ l.xRight ∧ l.yTop ≤ l.yBottom :=
        fun l hl => hls l (by simp [hl])
      intro o ho
      by_cases hp : candidateIn cur xL yT xR yB
      · by_cases hb : rejectPart = true ∧ areaRatioOf xL yT xR yB cur < 1
        · simp [get_labels_in_rectangle, hp, hb] at ho
        · by_cases hm : areaRatioOf xL yT xR yB cur ≥ minPct
          · simp only [get_labels_in_rectangle, hp, if_true, hb, if_neg, hm, if_pos,
              List.mem_cons, not_false_iff] at ho
            rcases ho with rfl | ho
            · obtain ⟨hc1, hc2, hc3, hc4⟩ := hp
              unfold clipLabel
              refine ⟨?_, ?_, ?_, ?_, ?_, ?_, rfl⟩ <;> simp <;> omega
            · exact ih hrest o ho
          · simp only [get_labels_in_rectangle, hp, if_true, hb, if_neg, hm,
              not_false_iff] at ho
            exact ih hrest o (by simpa using ho)
      · simp only [get_labels_in_rectangle, hp, if_neg, not_false_iff] at ho
        exact ih hrest o (by simpa using ho)

/-- Witness for clip_outputInvariant: the demo label against the rectangle
(150,150,350,350), where the clipped output box is degenerate-free and the
invariant is checked on the produced list. -/
theorem clip_outputInvariant_witness :
    (∀ l ∈ [lblDemo], l.xLeft ≤ l.xRight ∧ l.yTop ≤ l.yBottom) ∧
    (150 : ℤ) ≤ 350 ∧
    ∀ o ∈ (get_labels_in_rectangle [lblDemo] 150 150 350 350 0 false).1,
      0 ≤ o.xLeft ∧ o.xLeft ≤ o.xRight ∧ o.xRight ≤ 350 - 150 ∧
      0 ≤ o.yTop ∧ o.yTop ≤ o.yBottom ∧ o.yBottom ≤ 350 - 150 ∧
      o.area = (o.xRight - o.xLeft) * (o.yBottom - o.yTop) :=
  ⟨by decide, by decide,
   clip_outputInvariant [lblDemo] 150 150 350 350 0 false (by decide) (by decide) (by decide)⟩

/-- Claim C3: with rejectPartial true, clip stops scanning at the first
candidate whose areaRatio is below 1 (everything after it in the input is
never examined, so the result does not depend on it) and returns
isPartial true; in particular the specification scenario with the demo
label and rectangle (150,150,350,350) returns isPartial true. -/
theorem clip_stopsAtFirstPartialCandidate (pre suf suf' : List AbsLabel) (l : AbsLabel)
    (xL yT xR yB : ℤ) (minPct : ℚ)
    (hc : candidateIn l xL yT xR yB) (hq : areaRatioOf xL yT xR yB l < 1) :
    (get_labels_in_rectangle (pre ++ l :: suf) xL yT xR yB minPct true).2 = true ∧
    get_labels_in_rectangle (pre ++ l :: suf) xL yT xR yB minPct true =
      get_labels_in_rectangle (pre ++ l :: suf') xL yT xR yB minPct true ∧
    (get_labels_in_rectangle [lblDemo] 150 150 350 350 minPct true).2 = true := by
  have hdemoArea : (clipLabel 150 150 350 350 lblDemo).area = 2500 := by decide
  have hdemo : areaRatioOf 150 150 350 350 lblDemo < 1 := by
    unfold areaRatioOf
    rw [hdemoArea]
    norm_num [lblDemo]
  refine ⟨(clip_break pre suf suf' l xL yT xR yB minPct hc hq).2,
    (clip_break pre suf suf' l xL yT xR yB minPct hc hq).1, ?_⟩
  exact (clip_break [] [] [] lblDemo 150 150 350 350 minPct (by decide) hdemo).2

/-- Witness for clip_stopsAtFirstPartialCandidate: the demo label is a
candidate for the rectangle (150,150,350,350) with areaRatio below 1, and
labels following it are never examined. -/
theorem clip_stopsAtFirstPartialCandidate_witness :
    candidateIn lblDemo 150 150 350 350 ∧
    areaRatioOf 150 150 350 350 lblDemo < 1 ∧
    ((get_labels_in_rectangle [lblDemo, lblFar] 150 150 350 350 (1 / 2) true).2 = true ∧
      get_labels_in_rectangle [lblDemo, lblFar] 150 150 350 350 (1 / 2) true =
        get_labels_in_rectangle [lblDemo] 150 150 350 350 (1 / 2) true ∧
      (get_labels_in_rectangle [lblDemo] 150 150 350 350 (1 / 2) true).2 = true) :=
  have hdemo : areaRatioOf 150 150 350 350 lblDemo < 1 := by
    have hdemoArea : (clipLabel 150 150 350 350 lblDemo).area = 2500 := by decide
    unfold areaRatioOf
    rw [hdemoArea]
    norm_num [lblDemo]
  ⟨by decide, hdemo,
   by
    have h := clip_stopsAtFirstPartialCandidate [] [lblFar] [] lblDemo 150 150 350 350 (1 / 2)
      (by decide) hdemo
    simpa using h⟩

/-- Claim C4: converting a normalized label (coordinates in [0,1]) to
ABSOLUTE and back with the same dimensions (imgWidth, imgHeight above 1)
reproduces the class exactly and every geometric field within one pixel,
i.e. within 1/(imgWidth-1) resp. 1/(imgHeight-1). -/
theorem convert_roundTrip (l : YoloLabel) (imgWidth imgHeight : ℤ)
    (hxc0 : 0 ≤ l.xCenter) (hxc1 : l.xCenter ≤ 1)
    (hyc0 : 0 ≤ l.yCenter) (hyc1 : l.yCenter ≤ 1)
    (hw0 : 0 ≤ l.wBox) (hw1 : l.wBox ≤ 1)
    (hh0 : 0 ≤ l.hBox) (hh1 : l.hBox ≤ 1)
    (hW : 2 ≤ imgWidth) (hH : 2 ≤ imgHeight) :
    convertToYolo (convertToAbs [l] imgWidth imgHeight) imgWidth imgHeight =
      [absToYolo imgWidth imgHeight (yoloToAbs imgWidth imgHeight l)] ∧
    (absToYolo imgWidth imgHeight (yoloToAbs imgWidth imgHeight l)).cls = l.cls ∧
    |(absToYolo imgWidth imgHeight (yoloToAbs imgWidth imgHeight l)).xCenter - l.xCenter|
      ≤ 1 / ((imgWidth : ℚ) - 1) ∧
    |(absToYolo imgWidth imgHeight (yoloToAbs imgWidth imgHeight l)).yCenter - l.yCenter|
      ≤ 1 / ((imgHeight : ℚ) - 1) ∧
    |(absToYolo imgWidth imgHeight (yoloToAbs imgWidth imgHeight l)).wBox - l.wBox|
      ≤ 1 / ((imgWidth : ℚ) - 1) ∧
    |(absToYolo imgWidth imgHeight (yoloToAbs imgWidth imgHeight l)).hBox - l.hBox|
      ≤ 1 / ((imgHeight : ℚ) - 1) := by
  have hdW : (1 : ℚ) ≤ (imgWidth : ℚ) - 1 := by
    have : (2 : ℚ) ≤ (imgWidth : ℚ) := by exact_mod_cast hW
    linarith
  have hdH : (1 : ℚ) ≤ (imgHeight : ℚ) - 1 := by
    have : (2 : ℚ) ≤ (imgHeight : ℚ) := by exact_mod_cast hH
    linarith
  refine ⟨rfl, rfl, ?_, ?_, ?_, ?_⟩
  · simpa [absToYolo, yoloToAbs] using
      roundtrip_center l.xCenter l.wBox ((imgWidth : ℚ) - 1) hdW
  · simpa [absToYolo, yoloToAbs] using
      roundtrip_center l.yCenter l.hBox ((imgHeight : ℚ) - 1) hdH
  · simpa [absToYolo, yoloToAbs] using
      roundtrip_width l.xCenter l.wBox ((imgWidth : ℚ) - 1) hdW
  · simpa [absToYolo, yoloToAbs] using
      roundtrip_width l.yCenter l.hBox ((imgHeight : ℚ) - 1) hdH

/-- Witness for convert_roundTrip: the normalized label (0,1/2,1/2,1/4,1/4)
on a 5 x 5 image. -/
theorem convert_roundTrip_witness :
    (0 : ℚ) ≤ lblYolo.xCenter ∧ lblYolo.xCenter ≤ 1 ∧
    (0 : ℚ) ≤ lblYolo.yCenter ∧ lblYolo.yCenter ≤ 1 ∧
    (0 : ℚ) ≤ lblYolo.wBox ∧ lblYolo.wBox ≤ 1 ∧
    (0 : ℚ) ≤ lblYolo.hBox ∧ lblYolo.hBox ≤ 1 ∧
    (2 : ℤ) ≤ 5 ∧
    (convertToYolo (convertToAbs [lblYolo] 5 5) 5 5 =
        [absToYolo 5 5 (yoloToAbs 5 5 lblYolo)] ∧
      (absToYolo 5 5 (yoloToAbs 5 5 lblYolo)).cls = lblYolo.cls ∧
      |(absToYolo 5 5 (yoloToAbs 5 5 lblYolo)).xCenter - lblYolo.xCenter|
        ≤ 1 / ((5 : ℚ) - 1) ∧
      |(absToYolo 5 5 (yoloToAbs 5 5 lblYolo)).yCenter - lblYolo.yCenter|
        ≤ 1 / ((5 : ℚ) - 1) ∧
      |(absToYolo 5 5 (yoloToAbs 5 5 lblYolo)).wBox - lblYolo.wBox|
        ≤ 1 / ((5 : ℚ) - 1) ∧
      |(absToYolo 5 5 (yoloToAbs 5 5 lblYolo)).hBox - lblYolo.hBox|
        ≤ 1 / ((5 : ℚ) - 1)) :=
  ⟨by norm_num [lblYolo], by norm_num [lblYolo], by norm_num [lblYolo], by norm_num [lblYolo],
   by norm_num [lblYolo], by norm_num [lblYolo], by norm_num [lblYolo], by norm_num [lblYolo],
   by norm_num,
   by
    have h := convert_roundTrip lblYolo 5 5 (by norm_num [lblYolo]) (by norm_num [lblYolo])
      (by norm_num [lblYolo]) (by norm_num [lblYolo]) (by norm_num [lblYolo])
      (by norm_num [lblYolo]) (by norm_num [lblYolo]) (by norm_num [lblYolo])
      (by norm_num) (by norm_num)
    exact_mod_cast h⟩

/-- Claim C7: transform with flipBits 3 equals the horizontal flip followed
by the vertical flip (on pixels then the pixel-only tail, and on labels),
and the two flips commute on both the pixel array and the label geometry,
so either order gives the same result. -/
theorem transform_flipsCommute (img : Image) (ls : List AbsLabel)
    (brightValue brightScale sigmaMultiplier xRelCenter yRelCenter : ℚ) (g : ℚ → ℚ) :
    transform_image img ls 3 brightValue brightScale sigmaMultiplier xRelCenter yRelCenter g =
      (postFlipPixels (flipud (fliplr img)) brightValue brightScale sigmaMultiplier
          xRelCenter yRelCenter g,
        flipLabelsV img.height (flipLabelsH img.width ls)) ∧
    flipud (fliplr img) = fliplr (flipud img) ∧
    flipLabelsV img.height (flipLabelsH img.width ls) =
      flipLabelsH img.width (flipLabelsV img.height ls) := by
  refine ⟨rfl, rfl, ?_⟩
  simp [flipLabelsH, flipLabelsV, List.map_map, Function.comp_def]

/-- Claim C8: the labels returned by transform depend only on the flip bits:
they are unchanged by the brightness, vignette and Gaussian parameters, and
with flipBits 0 the output label list is exactly the input list. -/
theorem transform_labelsDependOnlyOnFlips (img : Image) (ls : List AbsLabel) (flipValue : ℕ)
    (b1 s1 sm1 x1 y1 b2 s2 sm2 x2 y2 : ℚ) (g1 g2 : ℚ → ℚ) :
    (transform_image img ls flipValue b1 s1 sm1 x1 y1 g1).2 =
      (transform_image img ls flipValue b2 s2 sm2 x2 y2 g2).2 ∧
    (transform_image img ls 0 b1 s1 sm1 x1 y1 g1).2 = ls :=
  ⟨rfl, rfl⟩

/-- Claim C1 counterexample: with an empty label list, tile size 4 x 4 and
minLabels 1, a one-trial run records the rectangle (0,0,4,4) (zero labels)
as best; running a second trial whose label count is also zero, which does
not exceed the recorded best count, nevertheless replaces the recorded best
with the rectangle (10,10,14,14).  This refutes the claim that once some
trial is recorded as best, a later trial whose label count does not exceed
the best count leaves the recorded best trial unchanged: the code re-records
whenever maxLabels is still zero (mosaicdataset.py line 170). -/
theorem recordBest_counterexample :
    get_image cfgOneTrial [(0, 0), (10, 10)] = .ok ⟨0, 0, 4, 4⟩ [] ∧
    get_image cfgTwoTrials [(0, 0), (10, 10)] = .ok ⟨10, 10, 14, 14⟩ [] ∧
    Rect.mk 10 10 14 14 ≠ Rect.mk 0 0 4 4 :=
  ⟨by decide, by decide, by decide⟩

/-- Claim C1 (amended): a trial is recorded as the new best iff its label
count exceeds the best-so-far count or the best-so-far count is zero (which
includes the initial no-best state); consequently once a best with a
positive label count is recorded, any continuation of the loop in which no
trial exceeds that count returns exactly the recorded best. -/
theorem recordBest_amended (cfg : SamplerConfig) (n : ℕ) (draws : List (ℤ × ℤ))
    (maxLabels : ℕ) (r : Rect) (ls : List AbsLabel)
    (hterm : (trialOutcomes cfg n draws).length = n)
    (hml : ls.length = maxLabels) (hpos : 0 < maxLabels)
    (hall : ∀ p ∈ trialOutcomes cfg n draws, p.2.length ≤ maxLabels) :
    sampleLoop cfg n draws maxLabels (some (r, ls)) = .ok r ls ∧
    (∀ (numLabels mx : ℕ) (cand : Rect × List AbsLabel)
        (best : Option (Rect × List AbsLabel)),
      numLabels > mx ∨ mx = 0 → recordStep numLabels mx cand best = (numLabels, some cand)) ∧
    (∀ (numLabels mx : ℕ) (cand : Rect × List AbsLabel)
        (best : Option (Rect × List AbsLabel)),
      numLabels ≤ mx → mx ≠ 0 → recordStep numLabels mx cand best = (mx, best)) := by
  refine ⟨sampleLoop_preserve cfg n draws maxLabels r ls hterm hml hpos hall, ?_, ?_⟩
  · intro numLabels mx cand best h
    unfold recordStep
    rw [if_pos h]
  · intro numLabels mx cand best h1 h2
    unfold recordStep
    rw [if_neg (by omega)]

/-- Witness for recordBest_amended: a recorded best with one label survives
one further zero-label trial. -/
theorem recordBest_amended_witness :
    (trialOutcomes cfgTwoTrials 1 [(0, 0)]).length = 1 ∧
    ([lblDemo] : List AbsLabel).length = 1 ∧ 0 < 1 ∧
    (∀ p ∈ trialOutcomes cfgTwoTrials 1 [(0, 0)], p.2.length ≤ 1) ∧
    sampleLoop cfgTwoTrials 1 [(0, 0)] 1 (some (⟨7, 7, 11, 11⟩, [lblDemo])) =
      .ok ⟨7, 7, 11, 11⟩ [lblDemo] :=
  ⟨by decide, by decide, by decide, by decide,
   (recordBest_amended cfgTwoTrials 1 [(0, 0)] 1 ⟨7, 7, 11, 11⟩ [lblDemo]
      (by decide) (by decide) (by decide) (by decide)).1⟩

/-- Claim C2: when every one of the maxIter trials terminates and none
reaches minLabels, get_image still returns an ok result, taken from the
best-seen trial: a trial whose label count equals the maximum label count
observed over all maxIter trials. -/
theorem getImage_bestEffort (cfg : SamplerConfig) (draws : List (ℤ × ℤ))
    (hiter : 1 ≤ cfg.maxIter)
    (hterm : (trialOutcomes cfg cfg.maxIter draws).length = cfg.maxIter)
    (hbelow : ∀ p ∈ trialOutcomes cfg cfg.maxIter draws, p.2.length < cfg.minLabels) :
    ∃ r ls, get_image cfg draws = .ok r ls ∧
      (r, ls) ∈ trialOutcomes cfg cfg.maxIter draws ∧
      ls.length = maxLabelCount (trialOutcomes cfg cfg.maxIter draws) := by
  obtain ⟨r, ls, hres, hlen, hmem⟩ := sampleLoop_best_spec cfg cfg.maxIter draws 0 none
    hterm hbelow (fun _ => rfl) (fun r ls h => by cases h) (Or.inl hiter)
  refine ⟨r, ls, hres, ?_, ?_⟩
  · rcases hmem with h | h
    · exact h
    · cases h
  · simpa using hlen

/-- Witness for getImage_bestEffort: two zero-label trials with minLabels 1;
the run returns the best-seen trial with the maximal observed count 0. -/
theorem getImage_bestEffort_witness :
    1 ≤ cfgTwoTrials.maxIter ∧
    (trialOutcomes cfgTwoTrials cfgTwoTrials.maxIter [(0, 0), (10, 10)]).length =
      cfgTwoTrials.maxIter ∧
    (∀ p ∈ trialOutcomes cfgTwoTrials cfgTwoTrials.maxIter [(0, 0), (10, 10)],
      p.2.length < cfgTwoTrials.minLabels) ∧
    ∃ r ls, get_image cfgTwoTrials [(0, 0), (10, 10)] = .ok r ls ∧
      (r, ls) ∈ trialOutcomes cfgTwoTrials cfgTwoTrials.maxIter [(0, 0), (10, 10)] ∧
      ls.length = maxLabelCount (trialOutcomes cfgTwoTrials cfgTwoTrials.maxIter
        [(0, 0), (10, 10)]) :=
  ⟨by decide, by decide, by decide,
   getImage_bestEffort cfgTwoTrials [(0, 0), (10, 10)] (by decide) (by decide) (by decide)⟩

/-- Claim C9: the recording condition always holds while the best count is
still zero, so with at least one trial (and terminating inner retries) the
first trial is recorded and get_image reaches an ok result, never the
undefined-best branch; with maxIter 0 the extraction reads a never-assigned
best, modelled by the bestUndefined outcome. -/
theorem getImage_firstTrialRecorded (cfg : SamplerConfig) (draws : List (ℤ × ℤ))
    (hterm : (trialOutcomes cfg cfg.maxIter draws).length = cfg.maxIter) :
    (∀ (numLabels : ℕ) (cand : Rect × List AbsLabel)
        (best : Option (Rect × List AbsLabel)),
      recordStep numLabels 0 cand best = (numLabels, some cand)) ∧
    (1 ≤ cfg.maxIter → ∃ r ls, get_image cfg draws = .ok r ls) ∧
    (cfg.maxIter = 0 → get_image cfg draws = .bestUndefined) := by
  refine ⟨?_, ?_, ?_⟩
  · intro numLabels cand best
    unfold recordStep
    rw [if_pos (Or.inr rfl)]
  · intro hiter
    exact sampleLoop_ok_of cfg cfg.maxIter draws 0 none hterm (fun _ => rfl) (Or.inl hiter)
  · intro h0
    unfold get_image
    rw [h0]
    rfl

/-- Witness for getImage_firstTrialRecorded: a single-trial run on an empty
label list reaches an ok result, and the zero-trial run is undefined. -/
theorem getImage_firstTrialRecorded_witness :
    (trialOutcomes cfgOneTrial cfgOneTrial.maxIter [(0, 0)]).length = cfgOneTrial.maxIter ∧
    ((∀ (numLabels : ℕ) (cand : Rect × List AbsLabel)
        (best : Option (Rect × List AbsLabel)),
      recordStep numLabels 0 cand best = (numLabels, some cand)) ∧
    (1 ≤ cfgOneTrial.maxIter → ∃ r ls, get_image cfgOneTrial [(0, 0)] = .ok r ls) ∧
    (cfgOneTrial.maxIter = 0 → get_image cfgOneTrial [(0, 0)] = .bestUndefined)) :=
  ⟨by decide, getImage_firstTrialRecorded cfgOneTrial [(0, 0)] (by decide)⟩
